import Mathlib

/-!
Verification of the call-frame reconstructor of `tx2uml`
(`plantUmlStreamer`: `genMessages` and its helpers).

The TypeScript source builds one PlantUML string by appending newline-terminated
lines.  The embedding represents each emitted line as a constructor of `Instr`
(with `renderInstr` giving the exact source text of the line) and models
`genMessages` as a fold over the input list of messages with explicit state:
the contract call stack and the `previousMessage` reference.

Two modelling notes, each justified where it is used:
* The JavaScript array used as the call stack pushes and pops at the end and is
  iterated via a reversed copy; the embedding uses a `List` whose head is the
  most recently pushed frame, so push is `cons`, pop is `tail`, and both the
  return-detection walk and the final drain traverse the list front to back.
* The source mutates `previousMessage.to_` (an object shared with the input
  array) in the `Value` branch.  For the *emitted output* a functional update
  of the stored previous message is equivalent: whenever the written value
  differs from the old one, the return-detection walk that just ran has already
  popped the previous message off the call stack (the previous message, when it
  is on the stack at all, is its top frame, and the walk always pops the top
  frame first), so no later read ever observes the mutation except through the
  `previousMessage` reference itself.  The store effect on the input array is
  modelled separately and faithfully by `finalArray`.
-/

/-- The TypeScript `MessageType` enum is numeric (`Value = 0` … `Delegatecall = 4`)
and open at runtime: a `Message` may carry a code outside the five declared
values.  `Unknown code` represents such out-of-range kinds. -/
inductive MessageType
  | Value
  | Call
  | Create
  | Selfdestruct
  | Delegatecall
  | Unknown (code : Nat)
  deriving DecidableEq, Repr

structure DelegatedDetails where
  id : Nat
  last : Bool
  deriving DecidableEq, Repr

structure Param where
  name : String
  type : String
  value : String
  deriving DecidableEq, Repr

structure Payload where
  funcName : String
  funcSelector : String
  inputs : List Param
  outputs : List Param
  deriving DecidableEq, Repr

/-- `Message` from `transaction.d.ts`.  `from` is a Lean keyword, hence the
field name `from_`.  `value` (wei), `gasUsed`, `gasLimit` are the nonnegative
integers carried by `BigNumber`/`bigint` at runtime. -/
structure Message where
  id : Nat := 0
  type : MessageType
  from_ : String
  to_ : String
  parentId : Option Nat := none
  delegatedCall : Option DelegatedDetails := none
  value : Nat := 0
  payload : Option Payload := none
  gasUsed : Nat := 0
  gasLimit : Nat := 0
  callDepth : Nat := 0
  status : Bool := true
  error : Option String := none
  deriving DecidableEq, Repr

structure PumlGenerationOptions where
  gas : Bool := false
  params : Bool := false
  network : Option String := none
  deriving DecidableEq, Repr

/-- `address.substr(2, 4) + address.substr(-4, 4)`; a negative JavaScript
`substr` start counts from the end, clamped at 0, which `Nat` subtraction
models exactly. -/
def participantId (address : String) : String :=
  ((address.drop 2).take 4) ++ address.drop (address.length - 4)

/-- `address.substr(0, 6) + ".." + address.substr(-4, 4)`. -/
def shortAddress (address : String) : String :=
  address.take 6 ++ ".." ++ address.drop (address.length - 4)

/-- `genParams`: one `name: value, ` chunk per parameter (address-typed values
shortened), with the final `, ` sliced off. -/
def genParams (params : List Param) : String :=
  (params.foldl
    (fun acc param =>
      if param.type = "address" then
        acc ++ param.name ++ ": " ++ shortAddress param.value ++ ", "
      else
        acc ++ param.name ++ ": " ++ param.value ++ ", ")
    "").dropRight 2

/-- `genFunctionText`.  A JavaScript string is truthy exactly when nonempty, so
`payload.funcName` being truthy is `funcName ≠ ""` (making the inner
`|| "fallback"` dead code, as in the source). -/
def genFunctionText (message : Message) (params : Bool) : String :=
  match message.payload with
  | none => ""
  | some payload =>
    if message.type = MessageType.Create then "create"
    else if payload.funcName ≠ "" then
      if params then payload.funcName ++ "(" ++ genParams payload.inputs ++ ")"
      else payload.funcName
    else payload.funcSelector

def genGasUsage (message : Message) (gasUsage : Bool) : String :=
  if gasUsage then " [" ++ toString message.gasUsed ++ "]" else ""

/-- `genArrow`.  `isNaN(message.delegatedCall?.id)` is true exactly when
`delegatedCall` is absent (a present `id` is a finite number). -/
def genArrow (message : Message) : String :=
  let delegateColor := if message.delegatedCall.isSome then "[#3471CD]" else ""
  if message.type = MessageType.Call then "-" ++ delegateColor ++ ">"
  else if message.type = MessageType.Value then "-" ++ delegateColor ++ ">>"
  else if message.type = MessageType.Create then "-" ++ delegateColor ++ ">o"
  else if message.type = MessageType.Selfdestruct then "-" ++ delegateColor ++ "\\"
  else "-" ++ delegateColor ++ ">"

/-- Two-digit zero-padded rendering of `n < 100`. -/
def pad2 (n : Nat) : String :=
  if n < 10 then "0" ++ toString n else toString n

/-- Splits a (reversed) digit list into groups of three. -/
def chunk3rev : List Char → List (List Char)
  | [] => []
  | [a] => [[a]]
  | [a, b] => [[a, b]]
  | a :: b :: c :: rest => [a, b, c] :: chunk3rev rest

/-- Decimal rendering of `n` with `,` inserted every three digits from the
right (the default `BigNumber` `toFormat` group separator and size). -/
def groupNat (n : Nat) : String :=
  String.mk ((List.intercalate [','] (chunk3rev (toString n).data.reverse)).reverse)

/-- Models `new BigNumber(wei.toString()).div(new BigNumber(10).pow(18)).toFormat(2)`
for a nonnegative integer `wei`: the quotient has at most 18 decimal places
(under the default 20-place `DECIMAL_PLACES`, so the division is exact), and
`toFormat(2)` rounds half-up to 2 decimal places and groups thousands with `,`.
Rounding half-up to hundredths of `wei / 10^18` is integer
`(wei + 5*10^15) / 10^16`. -/
def weiToEthFormat (wei : Nat) : String :=
  let cents := (wei + 5 * 10 ^ 15) / 10 ^ 16
  groupNat (cents / 100) ++ "." ++ pad2 (cents % 100)

/-- One emitted PlantUML line of `genMessages`; `renderInstr` recovers the
exact text appended by the source. -/
inductive Instr
  | callArrow (fromP arrow toP text gas : String)
  | activate (p : String)
  | activateDelegate (p : String)
  | ret
  | retSelfdestruct
  | destroy (p : String)
  | note (p : String) (text : String)
  | valueArrow (fromP arrow toP amount gas : String)
  deriving DecidableEq, Repr

def renderInstr : Instr → String
  | Instr.callArrow f a t txt g => f ++ " " ++ a ++ " " ++ t ++ ": " ++ txt ++ g ++ "\n"
  | Instr.activate p => "activate " ++ p ++ "\n"
  | Instr.activateDelegate p => "activate " ++ p ++ " #809ECB\n"
  | Instr.ret => "return\n"
  | Instr.retSelfdestruct => "return selfdestruct\n"
  | Instr.destroy p => "destroy " ++ p ++ "\n"
  | Instr.note p t => "note right of " ++ p ++ ": " ++ t ++ "\n"
  | Instr.valueArrow f a t amt g => f ++ " " ++ a ++ " " ++ t ++ ": " ++ amt ++ " ETH" ++ g ++ "\n"

def isActivationInstr : Instr → Bool
  | Instr.activate _ => true
  | Instr.activateDelegate _ => true
  | Instr.callArrow _ _ _ _ _ => false
  | Instr.ret => false
  | Instr.retSelfdestruct => false
  | Instr.destroy _ => false
  | Instr.note _ _ => false
  | Instr.valueArrow _ _ _ _ _ => false

def isCloseInstr : Instr → Bool
  | Instr.ret => true
  | Instr.retSelfdestruct => true
  | Instr.destroy _ => true
  | Instr.callArrow _ _ _ _ _ => false
  | Instr.activate _ => false
  | Instr.activateDelegate _ => false
  | Instr.note _ _ => false
  | Instr.valueArrow _ _ _ _ _ => false

def activationCount (out : List Instr) : Nat := out.countP isActivationInstr

def closeCount (out : List Instr) : Nat := out.countP isCloseInstr

def closeInstrs (out : List Instr) : List Instr := out.filter isCloseInstr

/-- The close instruction `genEndLifeline` starts with. -/
def closeInstrOf (message : Message) : Instr :=
  if message.status then Instr.ret else Instr.destroy (participantId message.to_)

/-- `genEndLifeline`: `return` on success, `destroy` on failure, followed by a
note when `message.error` is truthy (present and nonempty). -/
def genEndLifeline (message : Message) : List Instr :=
  (if message.status then [Instr.ret] else [Instr.destroy (participantId message.to_)]) ++
    (match message.error with
     | some e => if e = "" then [] else [Instr.note (participantId message.to_) e]
     | none => [])

/-- The `for (const callStack of reservedCallStack)` loop: iterate the frames
top (most recent) first, ending each lifeline and popping, and break once a
popped frame's `from` equals the current message's `from`. -/
def returnWalk (mFrom : String) : List Message → List Instr × List Message
  | [] => ([], [])
  | f :: rest =>
    if mFrom = f.from_ then (genEndLifeline f, rest)
    else
      let r := returnWalk mFrom rest
      (genEndLifeline f ++ r.1, r.2)

/-- The guarded return-detection step: the walk runs only when a previous
message exists, its `to` differs from the current `from`, and it was not a
delegatecall. -/
def walkPhase (prev : Option Message) (message : Message) (stack : List Message) :
    List Instr × List Message :=
  match prev with
  | some p =>
    if message.from_ ≠ p.to_ ∧ p.type ≠ MessageType.Delegatecall then
      returnWalk message.from_ stack
    else ([], stack)
  | none => ([], stack)

def isLastDelegated (message : Message) : Bool :=
  match message.delegatedCall with
  | some d => d.last
  | none => false

/-- `if (previousMessage?.delegatedCall?.last) plantUml += "return\n"`. -/
def delegatePhase (prev : Option Message) : List Instr :=
  match prev with
  | some p => if isLastDelegated p then [Instr.ret] else []
  | none => []

/-- The dispatch on `message.type`: emitted lines, call stack after the
dispatch, and the `previousMessage` reference after the iteration (the `Value`
branch rewrites the stored previous message's `to` and skips advancing it; an
unrecognized kind matches no branch and only advances the reference). -/
def dispatchPhase (options : PumlGenerationOptions) (message : Message)
    (stack : List Message) (prev : Option Message) :
    List Instr × List Message × Option Message :=
  if message.type = MessageType.Call ∨ message.type = MessageType.Create ∨
      message.type = MessageType.Delegatecall then
    let arrowLine := Instr.callArrow (participantId message.from_) (genArrow message)
      (participantId message.to_) (genFunctionText message options.params)
      (genGasUsage message options.gas)
    if message.type = MessageType.Delegatecall then
      ([arrowLine, Instr.activateDelegate (participantId message.to_)], stack, some message)
    else
      ([arrowLine, Instr.activate (participantId message.to_)], message :: stack, some message)
  else if message.type = MessageType.Value then
    ([Instr.valueArrow (participantId message.from_) (genArrow message)
        (participantId message.to_) (weiToEthFormat message.value)
        (genGasUsage message options.gas)],
      stack,
      prev.map (fun p => { p with to_ := message.from_ }))
  else if message.type = MessageType.Selfdestruct then
    ([Instr.retSelfdestruct], stack.tail, some message)
  else
    ([], stack, some message)

structure GenState where
  stack : List Message
  prev : Option Message
  deriving DecidableEq, Repr

/-- One iteration of the `for (const message of messages)` loop. -/
def processMessage (options : PumlGenerationOptions) (message : Message)
    (s : GenState) : GenState × List Instr :=
  let w := walkPhase s.prev message s.stack
  let d := delegatePhase s.prev
  let t := dispatchPhase options message w.2 s.prev
  (⟨t.2.1, t.2.2⟩, w.1 ++ d ++ t.1)

def processMessages (options : PumlGenerationOptions) :
    List Message → GenState → GenState × List Instr
  | [], s => (s, [])
  | m :: rest, s =>
    let r := processMessage options m s
    let r2 := processMessages options rest r.1
    (r2.1, r.2 ++ r2.2)

/-- `genMessages`: empty input yields nothing; otherwise run the loop and then
drain, ending the lifeline of every frame still on the stack, most recent
first (`contractCallStack.reverse().forEach`). -/
def genMessages (messages : List Message)
    (options : PumlGenerationOptions := {}) : List Instr :=
  if messages.isEmpty then []
  else
    let r := processMessages options messages ⟨[], none⟩
    r.2 ++ (r.1.stack.map genEndLifeline).flatten

/-- The store effect of `genMessages` on the caller's `messages` array:
`previousMessage` aliases the array cell of the last non-`Value` message
processed, so `previousMessage.to_ = message.from` in the `Value` branch writes
that cell's `to` field.  Every write targets an index before the current one,
so the loop always reads the original message values. -/
def finalArrayGo (arr : List Message) (i : Nat) (prevIdx : Option Nat) :
    List Message → List Message
  | [] => arr
  | m :: rest =>
    if m.type = MessageType.Value then
      let arr2 :=
        match prevIdx with
        | some j =>
          match arr.get? j with
          | some pm => arr.set j { pm with to_ := m.from_ }
          | none => arr
        | none => arr
      finalArrayGo arr2 (i + 1) prevIdx rest
    else
      finalArrayGo arr (i + 1) (some i) rest

def finalArray (messages : List Message) : List Message :=
  finalArrayGo messages 0 none messages

/-- The note line `genEndLifeline` appends after its close instruction when
`message.error` is truthy. -/
def noteSuffix (message : Message) : List Instr :=
  match message.error with
  | some e => if e = "" then [] else [Instr.note (participantId message.to_) e]
  | none => []

/- Concrete test fixtures used by witnesses and counterexamples. -/

def addrA : String := "0x1111aaaa1111"
def addrB : String := "0x2222bbbb2222"
def addrC : String := "0x3333cccc3333"
def addrD : String := "0x4444dddd4444"
def addrE : String := "0x5555eeee5555"

def callAB : Message := { type := MessageType.Call, from_ := addrA, to_ := addrB }
def callBC : Message := { type := MessageType.Call, from_ := addrB, to_ := addrC }
def callCA : Message := { type := MessageType.Call, from_ := addrC, to_ := addrA }
def callABfail : Message :=
  { type := MessageType.Call, from_ := addrA, to_ := addrB, status := false }
def failErr : Message :=
  { type := MessageType.Call, from_ := addrA, to_ := addrB, status := false,
    error := some "Bad jump destination" }
def dcACLast : Message :=
  { type := MessageType.Delegatecall, from_ := addrA, to_ := addrC,
    delegatedCall := some ⟨1, true⟩ }
def dcBCLast : Message :=
  { type := MessageType.Delegatecall, from_ := addrB, to_ := addrC,
    delegatedCall := some ⟨1, true⟩ }
def dcBD : Message :=
  { type := MessageType.Delegatecall, from_ := addrB, to_ := addrD,
    delegatedCall := some ⟨1, false⟩ }
def sdAB : Message := { type := MessageType.Selfdestruct, from_ := addrA, to_ := addrB }
def valDE : Message :=
  { type := MessageType.Value, from_ := addrD, to_ := addrE, value := 10 ^ 18 }
def valBE : Message :=
  { type := MessageType.Value, from_ := addrB, to_ := addrE, value := 10 ^ 18 }
def unkAB : Message := { type := MessageType.Unknown 7, from_ := addrA, to_ := addrB }

/- Helper lemmas shared by the claim theorems. -/

theorem closeCount_append (a b : List Instr) :
    closeCount (a ++ b) = closeCount a + closeCount b := by
  simp [closeCount, List.countP_append]

theorem activationCount_append (a b : List Instr) :
    activationCount (a ++ b) = activationCount a + activationCount b := by
  simp [activationCount, List.countP_append]

theorem closeCount_genEndLifeline (m : Message) : closeCount (genEndLifeline m) = 1 := by
  unfold closeCount genEndLifeline
  rcases m.error with _ | e
  · cases m.status <;> simp [isCloseInstr]
  · cases m.status <;> by_cases h : e = "" <;>
      simp [isCloseInstr, h, List.countP_append, List.countP_cons]

theorem activationCount_genEndLifeline (m : Message) :
    activationCount (genEndLifeline m) = 0 := by
  unfold activationCount genEndLifeline
  rcases m.error with _ | e
  · cases m.status <;> simp [isActivationInstr]
  · cases m.status <;> by_cases h : e = "" <;>
      simp [isActivationInstr, h, List.countP_append, List.countP_cons]

theorem closeCount_endLifelines (l : List Message) :
    closeCount ((l.map genEndLifeline).flatten) = l.length := by
  induction l with
  | nil => simp [closeCount]
  | cons f rest ih =>
    simp only [List.map_cons, List.flatten_cons, List.length_cons]
    rw [closeCount_append, closeCount_genEndLifeline, ih]
    omega

theorem activationCount_endLifelines (l : List Message) :
    activationCount ((l.map genEndLifeline).flatten) = 0 := by
  induction l with
  | nil => simp [activationCount]
  | cons f rest ih =>
    simp only [List.map_cons, List.flatten_cons]
    rw [activationCount_append, activationCount_genEndLifeline, ih]

theorem returnWalk_counts (mFrom : String) (stack : List Message) :
    closeCount (returnWalk mFrom stack).1 + (returnWalk mFrom stack).2.length
      = stack.length ∧
    activationCount (returnWalk mFrom stack).1 = 0 := by
  induction stack with
  | nil => simp [returnWalk, closeCount, activationCount]
  | cons f rest ih =>
    obtain ⟨ih1, ih2⟩ := ih
    by_cases h : mFrom = f.from_
    · simp only [returnWalk, if_pos h, List.length_cons]
      exact ⟨by rw [closeCount_genEndLifeline]; omega, activationCount_genEndLifeline f⟩
    · simp only [returnWalk, if_neg h, List.length_cons]
      constructor
      · rw [closeCount_append, closeCount_genEndLifeline]
        omega
      · rw [activationCount_append, activationCount_genEndLifeline, ih2]

theorem walkPhase_counts (prev : Option Message) (m : Message) (stack : List Message) :
    closeCount (walkPhase prev m stack).1 + (walkPhase prev m stack).2.length
      = stack.length ∧
    activationCount (walkPhase prev m stack).1 = 0 := by
  cases prev with
  | none => simp [walkPhase, closeCount, activationCount]
  | some p =>
    by_cases hc : m.from_ ≠ p.to_ ∧ p.type ≠ MessageType.Delegatecall
    · simp only [walkPhase, if_pos hc]
      exact returnWalk_counts m.from_ stack
    · simp only [walkPhase, if_neg hc]
      simp [closeCount, activationCount]

theorem delegatePhase_eq_nil {prev : Option Message}
    (h : ∀ p, prev = some p → isLastDelegated p = false) : delegatePhase prev = [] := by
  cases prev with
  | none => rfl
  | some p => simp [delegatePhase, h p rfl]

theorem isLastDelegated_set_to (p : Message) (x : String) :
    isLastDelegated { p with to_ := x } = isLastDelegated p := rfl

/- Projection lemmas for the three phases of one loop iteration. -/

theorem processMessage_out (o : PumlGenerationOptions) (m : Message) (s : GenState) :
    (processMessage o m s).2 =
      (walkPhase s.prev m s.stack).1 ++ delegatePhase s.prev ++
        (dispatchPhase o m (walkPhase s.prev m s.stack).2 s.prev).1 := rfl

theorem processMessage_stack (o : PumlGenerationOptions) (m : Message) (s : GenState) :
    (processMessage o m s).1.stack =
      (dispatchPhase o m (walkPhase s.prev m s.stack).2 s.prev).2.1 := rfl

theorem processMessage_prev (o : PumlGenerationOptions) (m : Message) (s : GenState) :
    (processMessage o m s).1.prev =
      (dispatchPhase o m (walkPhase s.prev m s.stack).2 s.prev).2.2 := rfl

/-- The `Call`/`Create` dispatch branch: arrow, activation, push, advance. -/
theorem dispatchPhase_call (o : PumlGenerationOptions) (m : Message)
    (stack : List Message) (prev : Option Message)
    (h : m.type = MessageType.Call ∨ m.type = MessageType.Create) :
    dispatchPhase o m stack prev =
      ([Instr.callArrow (participantId m.from_) (genArrow m) (participantId m.to_)
          (genFunctionText m o.params) (genGasUsage m o.gas),
        Instr.activate (participantId m.to_)], m :: stack, some m) := by
  rcases h with h | h <;> simp [dispatchPhase, h]

/-- The `Delegatecall` dispatch branch: arrow, delegate-colored activation, no
stack change, advance. -/
theorem dispatchPhase_delegate (o : PumlGenerationOptions) (m : Message)
    (stack : List Message) (prev : Option Message)
    (h : m.type = MessageType.Delegatecall) :
    dispatchPhase o m stack prev =
      ([Instr.callArrow (participantId m.from_) (genArrow m) (participantId m.to_)
          (genFunctionText m o.params) (genGasUsage m o.gas),
        Instr.activateDelegate (participantId m.to_)], stack, some m) := by
  simp [dispatchPhase, h]

/-- The `Value` dispatch branch: value arrow, no stack change, rewrite the
stored previous message's destination without advancing the reference. -/
theorem dispatchPhase_value (o : PumlGenerationOptions) (m : Message)
    (stack : List Message) (prev : Option Message)
    (h : m.type = MessageType.Value) :
    dispatchPhase o m stack prev =
      ([Instr.valueArrow (participantId m.from_) (genArrow m) (participantId m.to_)
          (weiToEthFormat m.value) (genGasUsage m o.gas)], stack,
        prev.map (fun p => { p with to_ := m.from_ })) := by
  simp [dispatchPhase, h]

/-- The `Selfdestruct` dispatch branch: terminal return and pop. -/
theorem dispatchPhase_selfdestruct (o : PumlGenerationOptions) (m : Message)
    (stack : List Message) (prev : Option Message)
    (h : m.type = MessageType.Selfdestruct) :
    dispatchPhase o m stack prev = ([Instr.retSelfdestruct], stack.tail, some m) := by
  simp [dispatchPhase, h]

/-- An unrecognized kind matches no dispatch branch: nothing is emitted, the
stack is untouched, the previous-message reference still advances. -/
theorem dispatchPhase_unknown (o : PumlGenerationOptions) (m : Message)
    (stack : List Message) (prev : Option Message) (c : Nat)
    (h : m.type = MessageType.Unknown c) :
    dispatchPhase o m stack prev = ([], stack, some m) := by
  simp [dispatchPhase, h]

theorem closeCount_nil : closeCount [] = 0 := rfl

theorem activationCount_nil : activationCount [] = 0 := rfl

theorem counts_call_pair (f a t x g p : String) :
    activationCount [Instr.callArrow f a t x g, Instr.activate p] = 1 ∧
    closeCount [Instr.callArrow f a t x g, Instr.activate p] = 0 := by
  constructor <;> rfl

theorem counts_delegate_pair (f a t x g p : String) :
    activationCount [Instr.callArrow f a t x g, Instr.activateDelegate p] = 1 ∧
    closeCount [Instr.callArrow f a t x g, Instr.activateDelegate p] = 0 := by
  constructor <;> rfl

theorem counts_value_arrow (f a t amt g : String) :
    activationCount [Instr.valueArrow f a t amt g] = 0 ∧
    closeCount [Instr.valueArrow f a t amt g] = 0 := by
  constructor <;> rfl

theorem counts_selfdestruct :
    activationCount [Instr.retSelfdestruct] = 0 ∧
    closeCount [Instr.retSelfdestruct] = 1 := by
  constructor <;> rfl

theorem processMessage_balance (o : PumlGenerationOptions) (m : Message) (s : GenState)
    (h1 : m.type ≠ MessageType.Delegatecall) (h2 : m.type ≠ MessageType.Selfdestruct)
    (hprev : ∀ p, s.prev = some p → isLastDelegated p = false) :
    activationCount (processMessage o m s).2 + s.stack.length
      = closeCount (processMessage o m s).2 + (processMessage o m s).1.stack.length := by
  obtain ⟨hw1, hw2⟩ := walkPhase_counts s.prev m s.stack
  have hd := delegatePhase_eq_nil hprev
  rw [processMessage_out, processMessage_stack, hd]
  rcases ht : m.type with _ | _ | _ | _ | _ | c
  case Delegatecall => exact absurd ht h1
  case Selfdestruct => exact absurd ht h2
  case Value =>
    rw [dispatchPhase_value o m _ s.prev ht]
    simp only [activationCount_append, closeCount_append, activationCount_nil,
      closeCount_nil, (counts_value_arrow _ _ _ _ _).1, (counts_value_arrow _ _ _ _ _).2]
    omega
  case Unknown =>
    rw [dispatchPhase_unknown o m _ s.prev c ht]
    simp only [activationCount_append, closeCount_append, activationCount_nil,
      closeCount_nil]
    omega
  all_goals
    rw [dispatchPhase_call o m _ s.prev (by first | exact Or.inl ht | exact Or.inr ht)]
    simp only [activationCount_append, closeCount_append, activationCount_nil,
      closeCount_nil, (counts_call_pair _ _ _ _ _ _).1, (counts_call_pair _ _ _ _ _ _).2,
      List.length_cons]
    omega

theorem processMessage_prev_ok (o : PumlGenerationOptions) (m : Message) (s : GenState)
    (hm : isLastDelegated m = false)
    (hprev : ∀ p, s.prev = some p → isLastDelegated p = false) :
    ∀ p, (processMessage o m s).1.prev = some p → isLastDelegated p = false := by
  intro p hp
  rcases ht : m.type with _ | _ | _ | _ | _ | c
  case Value =>
    simp only [processMessage, dispatchPhase, ht] at hp
    simp at hp
    rcases hs : s.prev with _ | q
    · rw [hs] at hp; simp at hp
    · rw [hs] at hp
      simp at hp
      rw [← hp, isLastDelegated_set_to]
      exact hprev q hs
  all_goals
    simp only [processMessage, dispatchPhase, ht] at hp
    simp at hp
    rw [← hp]
    exact hm

theorem processMessages_nil (o : PumlGenerationOptions) (s : GenState) :
    processMessages o [] s = (s, []) := rfl

theorem processMessages_cons (o : PumlGenerationOptions) (m : Message)
    (rest : List Message) (s : GenState) :
    processMessages o (m :: rest) s =
      ((processMessages o rest (processMessage o m s).1).1,
        (processMessage o m s).2 ++ (processMessages o rest (processMessage o m s).1).2) := rfl

theorem genMessages_def (msgs : List Message) (o : PumlGenerationOptions) :
    genMessages msgs o =
      if msgs.isEmpty then []
      else
        (processMessages o msgs ⟨[], none⟩).2 ++
          (((processMessages o msgs ⟨[], none⟩).1.stack.map genEndLifeline).flatten) := rfl

theorem processMessages_balance (o : PumlGenerationOptions) (msgs : List Message) :
    ∀ s : GenState,
      (∀ m ∈ msgs, m.type ≠ MessageType.Delegatecall ∧ m.type ≠ MessageType.Selfdestruct ∧
        isLastDelegated m = false) →
      (∀ p, s.prev = some p → isLastDelegated p = false) →
      activationCount (processMessages o msgs s).2 + s.stack.length
        = closeCount (processMessages o msgs s).2 + (processMessages o msgs s).1.stack.length := by
  induction msgs with
  | nil =>
    intro s _ _
    rw [processMessages_nil]
    simp [activationCount_nil, closeCount_nil]
  | cons m rest ih =>
    intro s hall hprev
    have hm := hall m (List.mem_cons_self m rest)
    have hstep := processMessage_balance o m s hm.1 hm.2.1 hprev
    have hprev2 := processMessage_prev_ok o m s hm.2.2 hprev
    have hrest := ih (processMessage o m s).1
      (fun x hx => hall x (List.mem_cons_of_mem m hx)) hprev2
    rw [processMessages_cons]
    simp only [activationCount_append, closeCount_append]
    omega

/-- Claim C2, amended: for every input sequence containing no `DelegateCall`
event, no event marked `delegatedCall.last = true`, and no `SelfDestruct`
event, the number of activation instructions emitted by `genMessages` equals
the number of close instructions (returns plus destroys) emitted.  (The
original claim fails: a `SelfDestruct` on an empty stack emits a close with no
matching activation, and a delegate activation whose `last` marker never fires
before the end of input is never closed.) -/
theorem stack_balance_amended (msgs : List Message) (o : PumlGenerationOptions)
    (h : ∀ m ∈ msgs, m.type ≠ MessageType.Delegatecall ∧
      m.type ≠ MessageType.Selfdestruct ∧ isLastDelegated m = false) :
    activationCount (genMessages msgs o) = closeCount (genMessages msgs o) := by
  rw [genMessages_def]
  cases hE : msgs.isEmpty
  · have hb := processMessages_balance o msgs ⟨[], none⟩ h (fun p hp => nomatch hp)
    simp only [hE, Bool.false_eq_true, if_false]
    rw [activationCount_append, closeCount_append, activationCount_endLifelines,
      closeCount_endLifelines]
    simp only [List.length_nil] at hb
    omega
  · simp [hE, activationCount_nil, closeCount_nil]

/-- Witness for `stack_balance_amended`: a concrete two-call trace. -/
theorem stack_balance_amended_witness :
    activationCount (genMessages [callAB, callBC] {}) =
      closeCount (genMessages [callAB, callBC] {}) :=
  stack_balance_amended [callAB, callBC] {} (by decide)

/-- Counterexample to C2 as stated: a trace consisting of one `SelfDestruct`
emits its terminal return instruction with no matching activation, so the
two counts differ. -/
theorem stack_balance_counterexample :
    activationCount (genMessages [sdAB] {}) ≠ closeCount (genMessages [sdAB] {}) := by
  decide

/-- Claim C3: after the last event is processed, `genMessages` closes every
frame still on the frame stack by appending `genEndLifeline` of each remaining
frame, innermost (most recently pushed, i.e. head of the stack list) first, and
each such closing contributes exactly one close instruction — every remaining
frame is closed exactly once and none is left open in the returned output. -/
theorem drain_completeness :
    (∀ (msgs : List Message) (o : PumlGenerationOptions),
      genMessages msgs o =
        (processMessages o msgs ⟨[], none⟩).2 ++
          (((processMessages o msgs ⟨[], none⟩).1.stack.map genEndLifeline).flatten)) ∧
    (∀ stack : List Message,
      closeCount ((stack.map genEndLifeline).flatten) = stack.length) := by
  constructor
  · intro msgs o
    rw [genMessages_def]
    cases msgs with
    | nil => rw [processMessages_nil]; simp
    | cons a l => simp
  · exact closeCount_endLifelines

/-- Claim C10: processing a `SelfDestruct` while the frame stack is empty is
total: the walk on an empty stack emits nothing, the terminal
`return selfdestruct` instruction is still emitted after the delegate
closeout, the pop is a no-op leaving the stack empty, and the previous-message
reference advances so processing continues with subsequent events. -/
theorem selfdestruct_empty_stack (o : PumlGenerationOptions) (m : Message)
    (s : GenState) (h : m.type = MessageType.Selfdestruct) (hs : s.stack = []) :
    (processMessage o m s).1.stack = [] ∧
    (processMessage o m s).1.prev = some m ∧
    (processMessage o m s).2 = delegatePhase s.prev ++ [Instr.retSelfdestruct] := by
  have hw : walkPhase s.prev m s.stack = ([], []) := by
    rw [hs]
    cases s.prev with
    | none => rfl
    | some p =>
      by_cases hc : m.from_ ≠ p.to_ ∧ p.type ≠ MessageType.Delegatecall
      · simp only [walkPhase, if_pos hc]; rfl
      · simp only [walkPhase, if_neg hc]
  have hd := dispatchPhase_selfdestruct o m ([] : List Message) s.prev h
  refine ⟨?_, ?_, ?_⟩
  · simp only [processMessage_stack, hw, hd, List.tail_nil]
  · simp only [processMessage_prev, hw, hd]
  · simp only [processMessage_out, hw, hd, List.nil_append]

/-- Witness for `selfdestruct_empty_stack`: a concrete self-destruct message
processed from the initial state. -/
theorem selfdestruct_empty_stack_witness :
    (processMessage {} sdAB ⟨[], none⟩).1.stack = [] ∧
    (processMessage {} sdAB ⟨[], none⟩).1.prev = some sdAB ∧
    (processMessage {} sdAB ⟨[], none⟩).2 = delegatePhase none ++ [Instr.retSelfdestruct] :=
  selfdestruct_empty_stack {} sdAB ⟨[], none⟩ rfl rfl

/-- Claim C9: a `ValueTransfer` dispatch emits exactly one value arrow whose
amount label is `weiToEthFormat` of the event's integer amount — the amount
divided by `10^18` (exact for integer wei) and formatted to two decimal
places — and on exact multiples of `10^18` the label is the quotient followed
by `.00`; e.g. `10^18` renders as `1.00`. -/
theorem value_scaling (o : PumlGenerationOptions) (m : Message)
    (stack : List Message) (prev : Option Message) (h : m.type = MessageType.Value) :
    (dispatchPhase o m stack prev).1 =
      [Instr.valueArrow (participantId m.from_) (genArrow m) (participantId m.to_)
        (weiToEthFormat m.value) (genGasUsage m o.gas)] ∧
    (∀ k : Nat, weiToEthFormat (k * 10 ^ 18) = groupNat k ++ ".00") := by
  constructor
  · rw [dispatchPhase_value o m stack prev h]
  · intro k
    have hc : (k * 10 ^ 18 + 5 * 10 ^ 15) / 10 ^ 16 = k * 100 := by
      have e18 : (10 : Nat) ^ 18 = 1000000000000000000 := by norm_num
      have e16 : (10 : Nat) ^ 16 = 10000000000000000 := by norm_num
      have e15 : (10 : Nat) ^ 15 = 1000000000000000 := by norm_num
      rw [e18, e16, e15]
      omega
    unfold weiToEthFormat
    rw [hc]
    show groupNat (k * 100 / 100) ++ "." ++ pad2 (k * 100 % 100) = groupNat k ++ ".00"
    have h1 : k * 100 / 100 = k := by omega
    have h2 : k * 100 % 100 = 0 := by omega
    rw [h1, h2]
    have h3 : pad2 0 = "00" := rfl
    rw [h3, String.append_assoc]
    rfl

/-- Witness for `value_scaling`: a concrete transfer of `10^18` wei renders
with amount label `1.00`. -/
theorem value_scaling_witness :
    (dispatchPhase {} valDE [] none).1 =
      [Instr.valueArrow (participantId valDE.from_) (genArrow valDE)
        (participantId valDE.to_) (weiToEthFormat valDE.value)
        (genGasUsage valDE (PumlGenerationOptions.gas {}))] ∧
    weiToEthFormat (10 ^ 18) = "1.00" := by
  constructor
  · exact (value_scaling {} valDE [] none rfl).1
  · have h := (value_scaling {} valDE [] none rfl).2 1
    rw [one_mul] at h
    rw [h]
    decide

/-- Claim C7: `genEndLifeline`, the close rule used by both the
return-detection walk and the drain, emits a normal `return` when the frame's
event succeeded and a `destroy` targeting the frame's destination (never a
`return`) when it failed; in either branch, a truthy `errorMessage` appends
exactly one `note` referencing the frame's destination immediately after the
close instruction, and an absent error appends nothing. -/
theorem close_instruction_rule (m : Message) :
    (m.status = true → genEndLifeline m = Instr.ret :: noteSuffix m) ∧
    (m.status = false →
      genEndLifeline m = Instr.destroy (participantId m.to_) :: noteSuffix m ∧
      Instr.ret ∉ genEndLifeline m) ∧
    (∀ e, m.error = some e → e ≠ "" →
      noteSuffix m = [Instr.note (participantId m.to_) e]) ∧
    (m.error = none → noteSuffix m = []) ∧
    closeCount (genEndLifeline m) = 1 := by
  refine ⟨?_, ?_, ?_, ?_, closeCount_genEndLifeline m⟩
  · intro hs
    unfold genEndLifeline noteSuffix
    rw [hs]
    simp
  · intro hs
    unfold genEndLifeline noteSuffix
    rw [hs]
    constructor
    · simp
    · rcases m.error with _ | e
      · simp
      · by_cases he : e = "" <;> simp [he]
  · intro e he hne
    unfold noteSuffix
    rw [he]
    simp [hne]
  · intro he
    unfold noteSuffix
    rw [he]

/-- Witness for `close_instruction_rule`: a concrete failed call with an error
message closes with `destroy` followed by its note, and never with `return`. -/
theorem close_instruction_rule_witness :
    genEndLifeline failErr = Instr.destroy (participantId failErr.to_) :: noteSuffix failErr ∧
    Instr.ret ∉ genEndLifeline failErr :=
  (close_instruction_rule failErr).2.1 rfl

/-- Claim C8, amended: an event whose kind is not one of the five recognized
kinds matches no dispatch branch and is silently skipped — the return-detection
walk and the delegate closeout still run, no dispatch output is emitted, the
stack is left as the walk left it, and the previous-message reference advances
to the unrecognized event — and `genMessages` returns normally, continuing
with subsequent events instead of failing. -/
theorem unknown_kind_skipped (o : PumlGenerationOptions) (c : Nat) (m : Message)
    (s : GenState) (h : m.type = MessageType.Unknown c) :
    processMessage o m s =
      (⟨(walkPhase s.prev m s.stack).2, some m⟩,
        (walkPhase s.prev m s.stack).1 ++ delegatePhase s.prev) := by
  have hd := dispatchPhase_unknown o m (walkPhase s.prev m s.stack).2 s.prev c h
  unfold processMessage
  simp only [hd, List.append_nil]

/-- Witness for `unknown_kind_skipped`: a concrete event with enum code 7. -/
theorem unknown_kind_skipped_witness :
    processMessage {} unkAB ⟨[], none⟩ =
      (⟨(walkPhase none unkAB []).2, some unkAB⟩,
        (walkPhase none unkAB []).1 ++ delegatePhase none) :=
  unknown_kind_skipped {} 7 unkAB ⟨[], none⟩ rfl

/-- Counterexample to C8 as stated: a trace containing an event of
unrecognized kind 7 does not fail — `genMessages` returns normally, emits
nothing for the malformed event, and still processes the following call. -/
theorem unknown_kind_counterexample :
    genMessages [unkAB, callBC] {} =
      [Instr.callArrow (participantId addrB) "->" (participantId addrC) "" "",
       Instr.activate (participantId addrC), Instr.ret] := by
  decide

/-- The unguarded walk loop pops some prefix of the stack: it ends the
lifeline of each popped frame, every popped frame except possibly the last
has an origin different from the current one, and it stops early (leaving a
nonempty stack) only on a frame whose origin matches. -/
theorem returnWalk_char (mFrom : String) (stack : List Message) :
    ∃ k, k ≤ stack.length ∧ (stack ≠ [] → 1 ≤ k) ∧
      returnWalk mFrom stack = (((stack.take k).map genEndLifeline).flatten, stack.drop k) ∧
      (∀ f ∈ stack.take (k - 1), f.from_ ≠ mFrom) ∧
      (stack.drop k ≠ [] →
        ∃ f, stack.take k = stack.take (k - 1) ++ [f] ∧ f.from_ = mFrom) := by
  induction stack with
  | nil => exact ⟨0, by simp [returnWalk], by simp, by simp [returnWalk], by simp, by simp⟩
  | cons g rest ih =>
    by_cases h : mFrom = g.from_
    · refine ⟨1, by simp, fun _ => le_refl 1, ?_, by simp, fun _ => ⟨g, by simp, h.symm⟩⟩
      simp [returnWalk, h]
    · obtain ⟨k, hk, hpos, heq, hmin, hlast⟩ := ih
      refine ⟨k + 1, ?_, fun _ => by omega, ?_, ?_, ?_⟩
      · simpa using Nat.succ_le_succ hk
      · simp only [returnWalk, if_neg h, heq, List.take_succ_cons, List.drop_succ_cons,
          List.map_cons, List.flatten_cons]
      · intro f hf
        rcases k with _ | k2
        · simp at hf
        · rw [Nat.succ_sub_one, List.take_succ_cons] at hf
          rcases List.mem_cons.mp hf with hf | hf
          · subst hf; exact fun e => h e.symm
          · exact hmin f (by simpa using hf)
      · intro hne
        rw [List.drop_succ_cons] at hne
        have hrest_ne : rest ≠ [] := by
          intro e; rw [e] at hne; simp at hne
        have hk1 : 1 ≤ k := hpos hrest_ne
        obtain ⟨f, hfeq, hffrom⟩ := hlast hne
        refine ⟨f, ?_, hffrom⟩
        rcases k with _ | k2
        · omega
        · rw [Nat.succ_sub_one] at hfeq ⊢
          rw [List.take_succ_cons, List.take_succ_cons, hfeq]
          simp

/-- Claim C1: for a current event with a previous event, when the previous
event's destination differs from the current origin and the previous event was
not a delegatecall, the return-detection step closes frames from the top of
the stack downward — one `genEndLifeline` (one close instruction) per popped
frame — stopping as soon as a popped frame's origin equals the current origin
(checked after each pop, inclusively) or the stack empties; when the
precondition fails (including when no previous event exists) no frame is
closed and the stack is untouched. -/
theorem return_detection_walk :
    (∀ (m : Message) (stack : List Message), walkPhase none m stack = ([], stack)) ∧
    (∀ (p m : Message) (stack : List Message),
      ¬(m.from_ ≠ p.to_ ∧ p.type ≠ MessageType.Delegatecall) →
      walkPhase (some p) m stack = ([], stack)) ∧
    (∀ (p m : Message) (stack : List Message),
      (m.from_ ≠ p.to_ ∧ p.type ≠ MessageType.Delegatecall) →
      ∃ k, k ≤ stack.length ∧ (stack ≠ [] → 1 ≤ k) ∧
        walkPhase (some p) m stack =
          (((stack.take k).map genEndLifeline).flatten, stack.drop k) ∧
        closeCount (((stack.take k).map genEndLifeline).flatten) = k ∧
        (∀ f ∈ stack.take (k - 1), f.from_ ≠ m.from_) ∧
        (stack.drop k ≠ [] →
          ∃ f, stack.take k = stack.take (k - 1) ++ [f] ∧ f.from_ = m.from_)) := by
  refine ⟨fun m stack => rfl, ?_, ?_⟩
  · intro p m stack hc
    simp only [walkPhase, if_neg hc]
  · intro p m stack hc
    obtain ⟨k, hk, hpos, heq, hmin, hlast⟩ := returnWalk_char m.from_ stack
    refine ⟨k, hk, hpos, ?_, ?_, hmin, hlast⟩
    · simp only [walkPhase, if_pos hc]
      exact heq
    · rw [closeCount_endLifelines, List.length_take]
      omega

/-- Witness for `return_detection_walk`: a concrete walk (previous event
`callAB`, current event `callCA`, two stacked frames) that pops the whole
stack. -/
theorem return_detection_walk_witness :
    ∃ k, k ≤ ([callBC, callAB] : List Message).length ∧
      (([callBC, callAB] : List Message) ≠ [] → 1 ≤ k) ∧
      walkPhase (some callAB) callCA [callBC, callAB] =
        ((([callBC, callAB].take k).map genEndLifeline).flatten,
          [callBC, callAB].drop k) ∧
      closeCount ((([callBC, callAB].take k).map genEndLifeline).flatten) = k ∧
      (∀ f ∈ [callBC, callAB].take (k - 1), f.from_ ≠ callCA.from_) ∧
      ([callBC, callAB].drop k ≠ [] →
        ∃ f, [callBC, callAB].take k = [callBC, callAB].take (k - 1) ++ [f] ∧
          f.from_ = callCA.from_) :=
  return_detection_walk.2.2 callAB callCA [callBC, callAB] (by decide)

theorem closeCount_delegatePhase (p : Message) :
    closeCount (delegatePhase (some p)) = if isLastDelegated p then 1 else 0 := by
  unfold delegatePhase
  by_cases h : isLastDelegated p <;> simp [h, closeCount, List.countP_cons, isCloseInstr]

/-- Processing the opening `Call` of a trace from the initial state: arrow,
activation, push, no closes. -/
theorem processMessage_first_call (o : PumlGenerationOptions) (call : Message)
    (h : call.type = MessageType.Call) :
    processMessage o call ⟨[], none⟩ =
      (⟨[call], some call⟩,
        [Instr.callArrow (participantId call.from_) (genArrow call)
          (participantId call.to_) (genFunctionText call o.params)
          (genGasUsage call o.gas),
         Instr.activate (participantId call.to_)]) := by
  simp [processMessage, walkPhase, delegatePhase, dispatchPhase, h]

/-- One delegatecall step inside a delegate run: the walk is skipped (either
the previous message was itself a delegatecall, or the delegatecall originates
from the open call's destination), the delegate closeout fires as dictated by
the previous message, and dispatch adds no frame. -/
theorem processMessage_dc_step (o : PumlGenerationOptions) (call d p : Message)
    (hd : d.type = MessageType.Delegatecall) (hfrom : d.from_ = call.to_)
    (hp : p.type = MessageType.Delegatecall ∨ p.to_ = call.to_) :
    processMessage o d ⟨[call], some p⟩ =
      (⟨[call], some d⟩,
        delegatePhase (some p) ++
          [Instr.callArrow (participantId d.from_) (genArrow d) (participantId d.to_)
            (genFunctionText d o.params) (genGasUsage d o.gas),
           Instr.activateDelegate (participantId d.to_)]) := by
  have hw : walkPhase (some p) d [call] = ([], [call]) := by
    show (if d.from_ ≠ p.to_ ∧ p.type ≠ MessageType.Delegatecall then
        returnWalk d.from_ [call] else ([], [call])) = ([], [call])
    rw [if_neg]
    rcases hp with hp | hp
    · exact fun hc => hc.2 hp
    · exact fun hc => hc.1 (by rw [hfrom, hp])
  unfold processMessage
  simp only [hw, dispatchPhase_delegate o d [call] (some p) hd]
  rfl

/-- A delegate run after an opening call: the stack stays exactly `[call]`,
and the only close instructions are the delegate-scoped returns, one per
`last` marker on a message that is followed by a further message. -/
theorem dc_run (o : PumlGenerationOptions) (call : Message) :
    ∀ (dcs : List Message) (p : Message),
      (∀ d ∈ dcs, d.type = MessageType.Delegatecall ∧ d.from_ = call.to_) →
      (p.type = MessageType.Delegatecall ∨ p.to_ = call.to_) →
      (processMessages o dcs ⟨[call], some p⟩).1.stack = [call] ∧
      closeCount (processMessages o dcs ⟨[call], some p⟩).2 =
        ((p :: dcs).dropLast.countP isLastDelegated) := by
  intro dcs
  induction dcs with
  | nil =>
    intro p _ _
    exact ⟨rfl, rfl⟩
  | cons d rest ih =>
    intro p hall hp
    have hd := hall d (List.mem_cons_self d rest)
    have hstep := processMessage_dc_step o call d p hd.1 hd.2 hp
    have hrest := ih d (fun x hx => hall x (List.mem_cons_of_mem d hx)) (Or.inl hd.1)
    rw [processMessages_cons, hstep]
    constructor
    · exact hrest.1
    · rw [closeCount_append, closeCount_append, hrest.2, closeCount_delegatePhase]
      have hlit : closeCount
          [Instr.callArrow (participantId d.from_) (genArrow d) (participantId d.to_)
            (genFunctionText d o.params) (genGasUsage d o.gas),
           Instr.activateDelegate (participantId d.to_)] = 0 := rfl
      rw [hlit]
      have hdrop : (p :: d :: rest).dropLast = p :: (d :: rest).dropLast := by
        simp [List.dropLast_cons₂]
      rw [hdrop, List.countP_cons]
      by_cases hl : isLastDelegated p <;> simp [hl]
      omega

/-- Claim C4, amended: the dispatch of a `DelegateCall` event emits a call
arrow and a delegate-colored activation and never pushes or pops the frame
stack — but the return-detection step that precedes dispatch may still pop
frames while a `DelegateCall` is being processed, so overall stack depth can
change.  For one `Call` followed by delegatecalls out of its destination, the
stack holds exactly the one pushed frame throughout, the total closes of
`genMessages` are one delegate-scoped return per `last = true` marker that is
followed by a further event (a trailing marker fires none) plus the single
drain close of the `Call` frame. -/
theorem delegate_non_interference_amended :
    (∀ (o : PumlGenerationOptions) (m : Message) (stack : List Message)
      (prev : Option Message), m.type = MessageType.Delegatecall →
      (dispatchPhase o m stack prev).2.1 = stack ∧
      (dispatchPhase o m stack prev).1 =
        [Instr.callArrow (participantId m.from_) (genArrow m) (participantId m.to_)
          (genFunctionText m o.params) (genGasUsage m o.gas),
         Instr.activateDelegate (participantId m.to_)]) ∧
    (∀ (o : PumlGenerationOptions) (call : Message) (dcs : List Message),
      call.type = MessageType.Call → isLastDelegated call = false →
      (∀ d ∈ dcs, d.type = MessageType.Delegatecall ∧ d.from_ = call.to_) →
      (processMessages o (call :: dcs) ⟨[], none⟩).1.stack = [call] ∧
      closeCount (genMessages (call :: dcs) o) =
        ((call :: dcs).dropLast.countP isLastDelegated) + 1) := by
  constructor
  · intro o m stack prev h
    rw [dispatchPhase_delegate o m stack prev h]
    exact ⟨rfl, rfl⟩
  · intro o call dcs hcall hlast hall
    have hfirst := processMessage_first_call o call hcall
    have hrun := dc_run o call dcs call hall (Or.inr rfl)
    have hcons : processMessages o (call :: dcs) ⟨[], none⟩ =
        ((processMessages o dcs ⟨[call], some call⟩).1,
          [Instr.callArrow (participantId call.from_) (genArrow call)
            (participantId call.to_) (genFunctionText call o.params)
            (genGasUsage call o.gas),
           Instr.activate (participantId call.to_)] ++
            (processMessages o dcs ⟨[call], some call⟩).2) := by
      rw [processMessages_cons, hfirst]
    constructor
    · rw [hcons]
      exact hrun.1
    · rw [genMessages_def]
      simp only [List.isEmpty_cons, if_false, Bool.false_eq_true]
      rw [hcons]
      simp only []
      rw [closeCount_append, closeCount_append, hrun.2]
      have hlit : closeCount
          [Instr.callArrow (participantId call.from_) (genArrow call)
            (participantId call.to_) (genFunctionText call o.params)
            (genGasUsage call o.gas),
           Instr.activate (participantId call.to_)] = 0 := rfl
      rw [hlit, hrun.1, closeCount_endLifelines]
      have hdrop : (call :: dcs).dropLast.countP isLastDelegated =
          (call :: dcs.dropLast).countP isLastDelegated := by
        cases dcs with
        | nil => simp [hlast]
        | cons d rest => simp [List.dropLast_cons₂]
      rw [hdrop, List.countP_cons, hlast]
      simp

/-- Witness for `delegate_non_interference_amended`: a concrete call followed
by two delegatecalls, the second carrying the `last` marker (which, being
trailing, fires no delegate return; total closes = drain close only). -/
theorem delegate_non_interference_amended_witness :
    (dispatchPhase {} dcBD [callAB] (some callAB)).2.1 = [callAB] ∧
    (processMessages {} [callAB, dcBD, dcBCLast] ⟨[], none⟩).1.stack = [callAB] ∧
    closeCount (genMessages [callAB, dcBD, dcBCLast] {}) =
      (([callAB, dcBD, dcBCLast] : List Message).dropLast.countP isLastDelegated) + 1 := by
  refine ⟨(delegate_non_interference_amended.1 {} dcBD [callAB] (some callAB) rfl).1, ?_, ?_⟩
  · exact (delegate_non_interference_amended.2 {} callAB [dcBD, dcBCLast] rfl rfl
      (by decide)).1
  · exact (delegate_non_interference_amended.2 {} callAB [dcBD, dcBCLast] rfl rfl
      (by decide)).2

/-- Counterexample to C4 as stated: processing a `DelegateCall` event can
change frame-stack depth — the return-detection walk that runs before its
dispatch pops the open frame (depth 1 before, 0 after). -/
theorem delegate_depth_counterexample :
    (processMessages {} [callAB] ⟨[], none⟩).1.stack.length = 1 ∧
    (processMessage {} dcACLast
      (processMessages {} [callAB] ⟨[], none⟩).1).1.stack.length = 0 := by
  decide

theorem finalArrayGo_no_value :
    ∀ (rest arr : List Message) (i : Nat) (pidx : Option Nat),
      (∀ m ∈ rest, m.type ≠ MessageType.Value) →
      finalArrayGo arr i pidx rest = arr := by
  intro rest
  induction rest with
  | nil => intro arr i pidx _; rfl
  | cons m r ih =>
    intro arr i pidx h
    unfold finalArrayGo
    rw [if_neg (h m (List.mem_cons_self m r))]
    exact ih arr (i + 1) (some i) (fun x hx => h x (List.mem_cons_of_mem m hx))

/-- Claim C5, amended: `genMessages` computes its output as a function of the
input sequence and options, but the reconstruction is not mutation-free: when
a `ValueTransfer` is processed the stored previous event's `to` field — a cell
of the caller's input array — is overwritten with the transfer's origin.  For
every input containing no `ValueTransfer` event, no field of any input
`Message` is modified. -/
theorem input_immutability_amended (msgs : List Message)
    (h : ∀ m ∈ msgs, m.type ≠ MessageType.Value) :
    finalArray msgs = msgs :=
  finalArrayGo_no_value msgs msgs 0 none h

/-- Witness for `input_immutability_amended`: a transfer-free two-call trace
is left untouched. -/
theorem input_immutability_amended_witness :
    finalArray [callAB, callBC] = [callAB, callBC] :=
  input_immutability_amended [callAB, callBC] (by decide)

/-- Counterexample to C5 as stated: a `ValueTransfer` rewrites the `to` field
of the input event preceding it (here `callAB.to` becomes the transfer's
origin `addrD`), so the input sequence is mutated. -/
theorem input_mutation_counterexample :
    finalArray [callAB, valDE] ≠ [callAB, valDE] := by
  decide

theorem closeInstrs_append (a b : List Instr) :
    closeInstrs (a ++ b) = closeInstrs a ++ closeInstrs b := by
  simp [closeInstrs, List.filter_append]

theorem processMessages_append (o : PumlGenerationOptions) (xs ys : List Message) :
    ∀ s : GenState,
      processMessages o (xs ++ ys) s =
        ((processMessages o ys (processMessages o xs s).1).1,
          (processMessages o xs s).2 ++
            (processMessages o ys (processMessages o xs s).1).2) := by
  induction xs with
  | nil =>
    intro s
    rw [List.nil_append, processMessages_nil]
    simp
  | cons m rest ih =>
    intro s
    rw [List.cons_append, processMessages_cons, processMessages_cons, ih]
    simp [List.append_assoc]

theorem processMessage_sets_prev (o : PumlGenerationOptions) (m : Message)
    (s : GenState) (h : m.type ≠ MessageType.Value) :
    (processMessage o m s).1.prev = some m := by
  rw [processMessage_prev]
  rcases ht : m.type with _ | _ | _ | _ | _ | c
  · exact absurd ht h
  · rw [dispatchPhase_call o m _ s.prev (Or.inl ht)]
  · rw [dispatchPhase_call o m _ s.prev (Or.inr ht)]
  · rw [dispatchPhase_selfdestruct o m _ s.prev ht]
  · rw [dispatchPhase_delegate o m _ s.prev ht]
  · rw [dispatchPhase_unknown o m _ s.prev c ht]

/-- A `ValueTransfer` whose origin equals the stored previous event's
destination, when that previous event carries no pending `last` marker, is a
no-op on the state: the walk is skipped, no delegate return fires, the stack
is untouched, and the `to` rewrite stores back the value the field already
has. -/
theorem processMessage_value_transparent (o : PumlGenerationOptions) (v : Message)
    (s : GenState) (p : Message) (hp : s.prev = some p)
    (hv : v.type = MessageType.Value) (hfrom : v.from_ = p.to_)
    (hlast : isLastDelegated p = false) :
    processMessage o v s =
      (s, [Instr.valueArrow (participantId v.from_) (genArrow v) (participantId v.to_)
            (weiToEthFormat v.value) (genGasUsage v o.gas)]) := by
  obtain ⟨stack, prev⟩ := s
  simp only [GenState.mk.injEq] at hp ⊢
  subst hp
  have hw : walkPhase (some p) v stack = ([], stack) := by
    show (if v.from_ ≠ p.to_ ∧ p.type ≠ MessageType.Delegatecall then
        returnWalk v.from_ stack else ([], stack)) = ([], stack)
    rw [if_neg]
    exact fun hc => hc.1 hfrom
  have hd : delegatePhase (some p) = [] := by simp [delegatePhase, hlast]
  have hdp := dispatchPhase_value o v stack (some p) hv
  have hpp : ({ p with to_ := v.from_ } : Message) = p := by rw [hfrom]
  unfold processMessage
  simp only [hw, hd, hdp, List.nil_append, List.append_nil, Option.map_some, hpp]
  simp [hpp]

theorem isEmpty_append_cons (xs : List Message) (m : Message) (ys : List Message) :
    (xs ++ m :: ys).isEmpty = false := by
  cases xs <;> rfl

/-- Claim C6, amended: for two consecutive `Call` events `m1`, `m2` that on
their own trigger no return-detection closes (`m2.from = m1.to`), inserting
between them a `ValueTransfer` whose origin equals `m1`'s destination — when
`m1` carries no pending `delegatedCall.last` marker — emits only the value
arrow: the walk is skipped, no close instruction is produced by the transfer,
the frame stack and the stored previous event are unchanged (the `to` rewrite
writes back the existing value), and the whole run yields exactly the same
close instructions as the run without the transfer.  (Without the two added
provisos the claim fails: a transfer whose origin differs from the previous
destination triggers the return-detection walk itself, and a pending `last`
marker fires a second delegate return.) -/
theorem value_transfer_transparency (o : PumlGenerationOptions)
    (pre : List Message) (m1 v m2 : Message) (post : List Message)
    (h1 : m1.type = MessageType.Call) (h2 : m2.type = MessageType.Call)
    (hadj : m2.from_ = m1.to_) (hv : v.type = MessageType.Value)
    (hvfrom : v.from_ = m1.to_) (hlast : isLastDelegated m1 = false) :
    closeInstrs (genMessages (pre ++ m1 :: v :: m2 :: post) o) =
      closeInstrs (genMessages (pre ++ m1 :: m2 :: post) o) := by
  have hsplit1 : pre ++ m1 :: v :: m2 :: post = (pre ++ [m1]) ++ (v :: m2 :: post) := by
    simp
  have hsplit2 : pre ++ m1 :: m2 :: post = (pre ++ [m1]) ++ (m2 :: post) := by simp
  have hprev : (processMessages o (pre ++ [m1]) ⟨[], none⟩).1.prev = some m1 := by
    rw [processMessages_append, processMessages_cons, processMessages_nil]
    exact processMessage_sets_prev o m1 _ (by rw [h1]; intro e; cases e)
  have hstep := processMessage_value_transparent o v
    (processMessages o (pre ++ [m1]) ⟨[], none⟩).1 m1 hprev hv hvfrom hlast
  rw [genMessages_def, genMessages_def, hsplit1, hsplit2,
    processMessages_append o (pre ++ [m1]) (v :: m2 :: post),
    processMessages_append o (pre ++ [m1]) (m2 :: post),
    processMessages_cons o v (m2 :: post), hstep]
  have hne1 : ((pre ++ [m1]) ++ v :: m2 :: post).isEmpty = false :=
    isEmpty_append_cons _ v _
  have hne2 : ((pre ++ [m1]) ++ m2 :: post).isEmpty = false :=
    isEmpty_append_cons _ m2 _
  rw [hne1, hne2]
  simp only [Bool.false_eq_true, if_false, closeInstrs_append]
  have hva : closeInstrs [Instr.valueArrow (participantId v.from_) (genArrow v)
      (participantId v.to_) (weiToEthFormat v.value) (genGasUsage v o.gas)] = [] := rfl
  simp [hva, closeInstrs_append]

/-- Witness for `value_transfer_transparency`: inserting a transfer out of
`callAB`'s destination between two adjacent calls leaves the close
instructions unchanged. -/
theorem value_transfer_transparency_witness :
    closeInstrs (genMessages ([] ++ callAB :: valBE :: callBC :: []) {}) =
      closeInstrs (genMessages ([] ++ callAB :: callBC :: []) {}) :=
  value_transfer_transparency {} [] callAB valBE callBC [] rfl rfl rfl rfl rfl rfl

/-- Counterexample to C6 as stated: a transfer whose origin differs from the
previous destination triggers the return-detection walk during the transfer's
own processing, reordering the close instructions of the run. -/
theorem value_transparency_counterexample :
    closeInstrs (genMessages [callABfail, valDE, callBC] {}) ≠
      closeInstrs (genMessages [callABfail, callBC] {}) := by
  decide
